import Mathlib

/-!
Verification of the font-resolution and font-size-fitting core of the
`msoffice/pptx` tool set (`font_size_calculator.py`, `pptx_get_shape_font.py`).

The Python source is shallowly embedded: the filesystem and the Pillow text
measurement are abstracted as explicit function-valued parameters, the
module-level font-name cache is threaded as explicit state, Python floats are
modelled by rationals, and Python exceptions by `Except` values.
-/

namespace Pptx

/-! ## Kernel-computable string primitives

The embedding is kept evaluable by the kernel, so Python's `str` operations
are modelled on character lists instead of through the runtime-implemented
`String` functions. -/

/-- `charsLead sub s` : the character list `sub` is an initial segment of `s`. -/
def charsLead : List Char → List Char → Bool
  | [], _ => true
  | _ :: _, [] => false
  | a :: as, b :: bs => a == b && charsLead as bs

/-- `charsWithin sub s` : `sub` occurs contiguously somewhere inside `s`. -/
def charsWithin (sub : List Char) : List Char → Bool
  | [] => charsLead sub []
  | b :: bs => charsLead sub (b :: bs) || charsWithin sub bs

/-- Python `s.lower()` (ASCII, which is all the source compares). -/
def strLower (s : String) : String := ⟨s.data.map Char.toLower⟩

/-- Python `s.endswith(suf)`. -/
def strEndsWith (s suf : String) : Bool := charsLead suf.data.reverse s.data.reverse

/-- Python `s.startswith(pre)`. -/
def strStartsWith (s pre : String) : Bool := charsLead pre.data s.data

/-- Python substring containment `sub in s`. -/
def strContains (s sub : String) : Bool := charsWithin sub.data s.data

/-- Fuel-indexed engine of `strReplace`: replace non-overlapping occurrences
of `old` left to right.  The fuel (the length of the scanned list) only makes
the recursion structural; it never runs out. -/
def replaceFuel (old new : List Char) : ℕ → List Char → List Char
  | 0, s => s
  | _ + 1, [] => []
  | fuel + 1, c :: cs =>
    if old ≠ [] ∧ charsLead old (c :: cs) then
      new ++ replaceFuel old new fuel (cs.drop (old.length - 1))
    else c :: replaceFuel old new fuel cs

/-- Python `s.replace(old, new)` for the non-empty `old` patterns the source
uses. -/
def strReplace (s old new : String) : String :=
  ⟨replaceFuel old.data new.data s.data.length s.data⟩

/-! ## Font file index (`font_size_calculator.py`, dynamic font name mapping) -/

/-- Abstraction of the pieces of the filesystem and of fontTools that
`font_size_calculator.py` touches: directory test, directory listing
(`none` models an `OSError` / `PermissionError`), the name tuples
`(full_name, family_name, subfamily_name)` that `_get_font_names_from_file`
extracts from a font file, and the `os.path.isfile` test. -/
structure FontFS where
  isdir : String → Bool
  listdir : String → Option (List String)
  fontNamesOf : String → List (String × String × String)
  isfile : String → Bool

/-- The module-level cache `_dynamic_font_name_to_file`: an insertion-ordered
mapping from lowercase font name to the list of file names recorded for it
(Python dicts preserve insertion order). -/
abbrev FontMapping := List (String × List String)

/-- `os.path.join(dir, filename)` for the simple relative names used here. -/
def pathJoin (d f : String) : String := d ++ "/" ++ f

/-- Dict lookup in the association-list model of a Python dict. -/
def lookupAssoc (m : FontMapping) (k : String) : Option (List String) :=
  match m with
  | [] => none
  | (k', v) :: rest => if k' = k then some v else lookupAssoc rest k

/-- One `family_to_files[key].append(filename)` step of
`_build_font_name_mapping`: create the key on first use, and append the file
name unless it is already recorded under that key. -/
def addMapping (m : FontMapping) (key fname : String) : FontMapping :=
  match m with
  | [] => [(key, [fname])]
  | (k, fl) :: rest =>
    if k = key then (k, if fname ∈ fl then fl else fl ++ [fname]) :: rest
    else (k, fl) :: addMapping rest key fname

/-- Inner loop of `_build_font_name_mapping` over the name tuples of one file:
record the lowercased family name first, then the lowercased full name,
skipping empty names. -/
def insertFontNames (m : FontMapping) (filename : String)
    (names : List (String × String × String)) : FontMapping :=
  names.foldl (fun acc n =>
    let acc1 := if n.2.1 ≠ "" then addMapping acc (strLower n.2.1) filename else acc
    if n.1 ≠ "" then addMapping acc1 (strLower n.1) filename else acc1) m

/-- `filename.lower().endswith((".ttf", ".ttc", ".otf"))`. -/
def hasFontExt (filename : String) : Bool :=
  strEndsWith (strLower filename) ".ttf" || strEndsWith (strLower filename) ".ttc"
    || strEndsWith (strLower filename) ".otf"

/-- `_build_font_name_mapping(font_dir)`: scan the directory and build the
name-to-files mapping; an invalid or unreadable directory yields the empty
mapping (a warning in the source, not an error). -/
def build_font_name_mapping (fs : FontFS) (font_dir : String) : FontMapping :=
  if font_dir = "" ∨ ¬ fs.isdir font_dir then []
  else
    match fs.listdir font_dir with
    | none => []
    | some filenames =>
      filenames.foldl (fun acc filename =>
        if hasFontExt filename then
          insertFontNames acc filename (fs.fontNamesOf (pathJoin font_dir filename))
        else acc) []

/-- `initialize_font_system(font_dir)` as a transition on the cache state:
if the cache is non-empty it is left untouched (regardless of which directory
is requested), otherwise it is built from the requested directory. -/
def initialize_font_system (fs : FontFS) (st : FontMapping) (font_dir : String) :
    FontMapping :=
  if st = [] then build_font_name_mapping fs font_dir else st

/-- `get_font_name_mapping(font_dir)`: initialize the cache from `font_dir`
when it is empty and a directory was supplied, then return the cache. -/
def get_font_name_mapping (fs : FontFS) (st : FontMapping) (font_dir : String) :
    FontMapping :=
  if st = [] ∧ font_dir ≠ "" then initialize_font_system fs st font_dir else st

/-! ## Font file lookup (`find_font_file`) -/

/-- `font_name_lower.replace(" ", "").replace("-", "")`. -/
def stripSpacesHyphens (s : String) : String :=
  strReplace (strReplace s " " "") "-" ""

/-- Candidate-file normalization of the fallback heuristic:
`filename.lower().replace(" ", "").replace("-", "").replace(".ttc", "")
.replace(".ttf", "").replace(".otf", "")`. -/
def normalizeFileName (s : String) : String :=
  strReplace (strReplace (strReplace (strReplace (strReplace
    (strLower s) " " "") "-" "") ".ttc" "") ".ttf" "") ".otf" ""

/-- The fallback heuristic scan of `find_font_file`: first directory entry (in
listing order) with a recognized extension whose normalized name and the
normalized requested name contain one another. -/
def heuristicFind (fs : FontFS) (font_name_lower font_dir : String) : Option String :=
  match fs.listdir font_dir with
  | none => none
  | some filenames =>
    let name_parts := stripSpacesHyphens font_name_lower
    (filenames.find? (fun filename =>
      hasFontExt filename &&
        (strContains (normalizeFileName filename) name_parts ||
          strContains name_parts (normalizeFileName filename)))).map
      (pathJoin font_dir)

/-- `find_font_file(font_name, font_dir)`: guard the inputs, look the
lowercased name up in the (possibly freshly initialized) cache and return the
first recorded file that still exists on disk, else run the filename
heuristic; absence is `none`, never an error. -/
def find_font_file (fs : FontFS) (st : FontMapping) (font_name font_dir : String) :
    Option String :=
  if font_name = "" ∨ font_dir = "" ∨ ¬ fs.isdir font_dir then none
  else
    let font_name_lower := strLower font_name
    let font_mapping := get_font_name_mapping fs st font_dir
    let fromIndex : Option String :=
      match lookupAssoc font_mapping font_name_lower with
      | some possible_files =>
        (possible_files.find? (fun filename =>
          fs.isfile (pathJoin font_dir filename))).map (pathJoin font_dir)
      | none => none
    match fromIndex with
    | some p => some p
    | none => heuristicFind fs font_name_lower font_dir

/-! ## Font-size fitting engine (`calculate_fitting_font_size`) -/

/-- `MIN_FONT_SIZE = 6` (points). -/
def MIN_FONT_SIZE : ℤ := 6

/-- `DEFAULT_DPI = 96`. -/
def DEFAULT_DPI : ℚ := 96

/-- `pt_to_px = DEFAULT_DPI / 72`. -/
def pt_to_px : ℚ := DEFAULT_DPI / 72

/-- The full argument record of `calculate_fitting_font_size`.  Python floats
are modelled by rationals. -/
structure FittingRequest where
  width_pt : ℚ
  height_pt : ℚ
  items : List String
  max_size : ℤ
  font_name : String
  font_dir : String
  line_spacing : ℚ
  space_before_pt : ℚ
  space_after_pt : ℚ
  line_height_factor : ℚ
  is_fixed_line_spacing : Bool

/-- `width_px = width_pt * pt_to_px`. -/
def widthPx (req : FittingRequest) : ℚ := req.width_pt * pt_to_px

/-- The errors the Python function can raise: the two `ValueError`s it raises
itself, and the `ZeroDivisionError` that `//` raises when `width_px` is zero. -/
inductive FitError where
  | fontNotFound
  | measurementFailure
  | divisionByZero
deriving DecidableEq

instance {ε : Type u} {α : Type v} [DecidableEq ε] [DecidableEq α] :
    DecidableEq (Except ε α) := fun x y =>
  match x, y with
  | .ok a, .ok b =>
    if h : a = b then .isTrue (by rw [h])
    else .isFalse (fun hh => h (by injection hh))
  | .error e, .error f =>
    if h : e = f then .isTrue (by rw [h])
    else .isFalse (fun hh => h (by injection hh))
  | .ok _, .error _ => .isFalse Except.noConfusion
  | .error _, .ok _ => .isFalse Except.noConfusion

/-- Abstraction of `measure_text_width(text, font_path, font_size_pt)`:
the measured pixel width, or `none` when measurement fails. -/
abbrev Measure := String → String → ℤ → Option ℚ

/-- `max(1, int((text_width_px + width_px - 1) // width_px))` — the wrapped
line count charged to one item, from its measured width `w` and the available
width `a` in pixels (Python float floor-division followed by `int` is the
mathematical floor here, since the value is already integral). -/
def wrapLines (a w : ℚ) : ℤ := max 1 ⌊(w + a - 1) / a⌋

/-- The inner per-item loop at one candidate size: measure every item,
raising `measurementFailure` at the first failed measurement, raising
`divisionByZero` if the available pixel width is zero (Python float
floor-division by zero), and otherwise summing the wrapped line counts. -/
def measureItems (measure : Measure) (font_path : String) (a : ℚ) (s : ℤ) :
    List String → Except FitError ℤ
  | [] => .ok 0
  | item :: rest =>
    match measure item font_path s with
    | none => .error .measurementFailure
    | some w =>
      if a = 0 then .error .divisionByZero
      else
        match measureItems measure font_path a s rest with
        | .error e => .error e
        | .ok tl => .ok (wrapLines a w + tl)

/-- Per-line height at candidate size `s`: the fixed spacing verbatim when
`is_fixed_line_spacing`, else `font_size * line_height_factor * line_spacing`. -/
def lineHeight (req : FittingRequest) (s : ℤ) : ℚ :=
  if req.is_fixed_line_spacing then req.line_spacing
  else (s : ℚ) * req.line_height_factor * req.line_spacing

/-- `total_lines * line_height + (space_before_pt + space_after_pt) * (num_paragraphs - 1)`. -/
def totalHeightNeeded (req : FittingRequest) (total_lines : ℤ) (s : ℤ) : ℚ :=
  (total_lines : ℚ) * lineHeight req s +
    (req.space_before_pt + req.space_after_pt) * ((req.items.length : ℚ) - 1)

/-- `range(max_size, MIN_FONT_SIZE - 1, -1)`: the candidate sizes
`max_size, max_size - 1, …, 6`, empty when `max_size < 6`. -/
def candidateSizes (max_size : ℤ) : List ℤ :=
  (List.range (max_size - 5).toNat).map (fun i : ℕ => max_size - (i : ℤ))

/-- The required height that the scan computes at candidate size `s`, when it
computes one: `none` when some measurement fails or the zero-width division
would be hit. -/
def requiredHeightAt (measure : Measure) (font_path : String) (req : FittingRequest)
    (s : ℤ) : Option ℚ :=
  match measureItems measure font_path (widthPx req) s req.items with
  | .error _ => none
  | .ok tl => some (totalHeightNeeded req tl s)

/-- Candidate size `s` fits: the scan computes a required height there and it
is at most the available height. -/
def fitsAt (measure : Measure) (font_path : String) (req : FittingRequest)
    (s : ℤ) : Prop :=
  ∃ h, requiredHeightAt measure font_path req s = some h ∧ h ≤ req.height_pt

instance (measure : Measure) (font_path : String) (req : FittingRequest) (s : ℤ) :
    Decidable (fitsAt measure font_path req s) :=
  match hreq : requiredHeightAt measure font_path req s with
  | some h =>
    if hle : h ≤ req.height_pt then
      .isTrue ⟨h, hreq, hle⟩
    else
      .isFalse (fun ⟨h', e, l⟩ => by
        rw [hreq] at e; cases e; exact hle l)
  | none =>
    .isFalse (fun ⟨h', e, _⟩ => by rw [hreq] at e; cases e)

/-- The size scan of `calculate_fitting_font_size` over a list of candidate
sizes: return the first size whose required height fits, propagate measurement
errors, and return `MIN_FONT_SIZE` when the candidates are exhausted. -/
def fitLoop (measure : Measure) (font_path : String) (req : FittingRequest) :
    List ℤ → Except FitError ℤ
  | [] => .ok MIN_FONT_SIZE
  | s :: rest =>
    match measureItems measure font_path (widthPx req) s req.items with
    | .error e => .error e
    | .ok tl =>
      if totalHeightNeeded req tl s ≤ req.height_pt then .ok s
      else fitLoop measure font_path req rest

/-- `calculate_fitting_font_size`: resolve the font file via `find_font_file`
(raising `fontNotFound` when unresolved) and run the largest-first scan. -/
def calculate_fitting_font_size (fs : FontFS) (st : FontMapping) (measure : Measure)
    (req : FittingRequest) : Except FitError ℤ :=
  match find_font_file fs st req.font_name req.font_dir with
  | none => .error .fontNotFound
  | some font_path => fitLoop measure font_path req (candidateSizes req.max_size)

/-! ## Shape font resolution (`pptx_get_shape_font.py`, `get_shape_font`) -/

/-- The four theme font slots extracted by `get_theme_fonts`. -/
structure ThemeFonts where
  major_latin : Option String
  major_ea : Option String
  minor_latin : Option String
  minor_ea : Option String

/-- An `rPr` / `defRPr` element: optional `a:ea` and `a:latin` children, each
carrying an optional `typeface` attribute value (`some ""` models an element
whose typeface attribute is present but empty; both are falsy in the source). -/
structure RunProps where
  ea : Option String
  latin : Option String

/-- A text run: its optional `a:rPr` element. -/
structure Run where
  rPr : Option RunProps

/-- An `a:pPr` / `a:lvl1pPr` element on the font side: its optional `defRPr`. -/
structure PProps where
  defRPr : Option RunProps

/-- A paragraph: its optional `a:pPr` element and its runs. -/
structure Paragraph where
  pPr : Option PProps
  runs : List Run

/-- An `a:lstStyle` element: its optional `a:lvl1pPr`. -/
structure LstStyle where
  lvl1pPr : Option PProps

/-- A text frame: its paragraphs and the `txBody`'s optional `lstStyle`. -/
structure TextFrame where
  paragraphs : List Paragraph
  lstStyle : Option LstStyle

/-- A shape: its optional text frame (`none` models a shape without a
`text_frame` attribute, or one whose `text_frame` is `None`). -/
structure Shape where
  textFrame : Option TextFrame

/-- Python truthiness for an optional string: `none` and the empty string are
falsy. -/
def truthy : Option String → Option String
  | some t => if t = "" then none else some t
  | none => none

/-- `_resolve_theme_font_reference(typeface, theme_fonts)`. -/
def resolve_theme_font_reference (typeface : String)
    (theme_fonts : Option ThemeFonts) : Option String :=
  if typeface = "" then none
  else
    match theme_fonts with
    | none => none
    | some tf =>
      if typeface = "+mj-lt" then tf.major_latin
      else if typeface = "+mn-lt" then tf.minor_latin
      else if typeface = "+mj-ea" then tf.major_ea
      else if typeface = "+mn-ea" then tf.minor_ea
      else none

/-- One typeface attribute as `_get_font_from_rpr` treats it: an absent or
empty value yields nothing; a theme reference (leading `+`) resolves via the
theme map, and the source's `if resolved:` accepts the resolved value only
when it is truthy (a missing or empty-string theme slot falls through); any
other value is returned verbatim. -/
def typefaceFont (t? : Option String) (theme_fonts : Option ThemeFonts) :
    Option String :=
  match t? with
  | some t =>
    if t ≠ "" then
      if strStartsWith t "+" then
        truthy (resolve_theme_font_reference t theme_fonts)
      else some t
    else none
  | none => none

/-- `_get_font_from_rpr(rpr_elem)`: East-Asian typeface first, then Latin;
a theme reference (leading `+`) is resolved via the theme map and skipped
when it does not resolve. -/
def getFontFromRPr (rpr : Option RunProps) (theme_fonts : Option ThemeFonts) :
    Option String :=
  match rpr with
  | none => none
  | some r =>
    match typefaceFont r.ea theme_fonts with
    | some f => some f
    | none => typefaceFont r.latin theme_fonts

/-- `run.font.name` of python-pptx: the Latin typeface attribute of the run's
`rPr`, when present. -/
def runFontName (run : Run) : Option String :=
  run.rPr.bind (·.latin)

/-- The `run.font.name` re-check that `get_shape_font` performs after
`_get_font_from_rpr` found nothing on the first run: a non-empty name is
returned verbatim unless it is a theme reference, which is returned only when
it resolves to a truthy name (the source's `if resolved:`). -/
def runNameFallback (run : Run) (theme_fonts : Option ThemeFonts) : Option String :=
  match runFontName run with
  | some n =>
    if n ≠ "" then
      if strStartsWith n "+" then
        truthy (resolve_theme_font_reference n theme_fonts)
      else some n
    else none
  | none => none

/-- The first-run level of `get_shape_font`: `_get_font_from_rpr` on the
first run's `rPr`, then the `run.font.name` re-check. -/
def runLevelFont (runs : List Run) (theme_fonts : Option ThemeFonts) :
    Option String :=
  match runs with
  | [] => none
  | run :: _ =>
    match getFontFromRPr run.rPr theme_fonts with
    | some f => some f
    | none => runNameFallback run theme_fonts

/-- The first-run level as the specification words it: the first run's
explicit run properties, East-Asian before Latin, theme references
resolved. -/
def runLevelFontSpec (runs : List Run) (theme_fonts : Option ThemeFonts) :
    Option String :=
  match runs with
  | [] => none
  | run :: _ => getFontFromRPr run.rPr theme_fonts

/-- The paragraph level: the first paragraph's `pPr > defRPr`. -/
def paraLevelFont (p : Paragraph) (theme_fonts : Option ThemeFonts) :
    Option String :=
  match p.pPr with
  | some ppr => getFontFromRPr ppr.defRPr theme_fonts
  | none => none

/-- The list-style level: the text frame's `lstStyle > lvl1pPr > defRPr`. -/
def lstStyleLevelFont (t : TextFrame) (theme_fonts : Option ThemeFonts) :
    Option String :=
  match t.lstStyle with
  | some ls =>
    match ls.lvl1pPr with
    | some l1 => getFontFromRPr l1.defRPr theme_fonts
    | none => none
  | none => none

/-- The theme fallback exactly as the source computes it: the Python `or`
chain `minor_ea or major_ea or minor_latin or major_latin`, whose value is
the *last operand verbatim* when every operand is falsy. -/
def themeFallback (theme_fonts : Option ThemeFonts) : Option String :=
  match theme_fonts with
  | none => none
  | some t =>
    (truthy t.minor_ea).or ((truthy t.major_ea).or
      ((truthy t.minor_latin).or t.major_latin))

/-- The theme fallback as the specification words it: first non-empty of
minor East-Asian, major East-Asian, minor Latin, major Latin; `none` when all
are absent or empty. -/
def themeFallbackSpec (theme_fonts : Option ThemeFonts) : Option String :=
  match theme_fonts with
  | none => none
  | some t =>
    (truthy t.minor_ea).or ((truthy t.major_ea).or
      ((truthy t.minor_latin).or (truthy t.major_latin)))

/-- `get_shape_font(shape, theme_fonts)`, translated clause by clause: first
run (`rPr`, then the `run.font.name` re-check), first paragraph's
`pPr > defRPr`, text frame's `lstStyle > lvl1pPr > defRPr`, then the theme
fallback `or` chain. -/
def get_shape_font (shape : Shape) (theme_fonts : Option ThemeFonts) :
    Option String :=
  match shape.textFrame with
  | none => none
  | some tf =>
    match tf.paragraphs with
    | [] => none
    | p :: _ =>
      match runLevelFont p.runs theme_fonts with
      | some f => some f
      | none =>
        match paraLevelFont p theme_fonts with
        | some f => some f
        | none =>
          match lstStyleLevelFont tf theme_fonts with
          | some f => some f
          | none => themeFallback theme_fonts

/-- The priority chain exactly as the specification words it: first run's run
properties, first paragraph's default run properties, list-style level-1
default run properties, then the theme fallback in the fixed order
minor East-Asian, major East-Asian, minor Latin, major Latin (first non-empty
wins; absence at every level yields `none`). -/
def getShapeFontSpec (shape : Shape) (theme_fonts : Option ThemeFonts) :
    Option String :=
  match shape.textFrame with
  | none => none
  | some tf =>
    match tf.paragraphs with
    | [] => none
    | p :: _ =>
      (runLevelFontSpec p.runs theme_fonts).or
        ((paraLevelFont p theme_fonts).or
          ((lstStyleLevelFont tf theme_fonts).or
            (themeFallbackSpec theme_fonts)))

/-! ## Placeholder paragraph defaults (`get_placeholder_paragraph_defaults`) -/

/-- An `a:lnSpc` element: optional `a:spcPct` and `a:spcPts` children, each
carrying its integer `val` attribute. -/
structure LnSpc where
  spcPct : Option ℤ
  spcPts : Option ℤ

/-- An `a:spcBef` / `a:spcAft` element, same shape. -/
structure SpcElem where
  spcPct : Option ℤ
  spcPts : Option ℤ

/-- An `a:lvl1pPr` element on the paragraph-metrics side. -/
structure Lvl1PProps where
  lnSpc : Option LnSpc
  spcBef : Option SpcElem
  spcAft : Option SpcElem

/-- An `a:lstStyle` element of a layout placeholder's `txBody`. -/
structure LayoutLstStyle where
  lvl1pPr : Option Lvl1PProps

/-- A layout placeholder's `p:txBody`. -/
structure LayoutTxBody where
  lstStyle : Option LayoutLstStyle

/-- One placeholder of the slide layout: its `placeholder_format.idx` and its
optional `p:txBody`. -/
structure LayoutPlaceholder where
  idx : ℤ
  txBody : Option LayoutTxBody

/-- The inputs `get_placeholder_paragraph_defaults` reads from its shape:
the shape's own placeholder index (`none` when the shape has no placeholder
format) and the placeholders of its slide's layout, in iteration order. -/
structure PlaceholderShape where
  placeholderIdx : Option ℤ
  layoutPlaceholders : List LayoutPlaceholder

/-- The `ParagraphDefaults` result record. `line_spacing_type` is one of the
source's string constants `"ratio"`, `"fixed_pt"`, `"default"`. -/
structure ParagraphDefaults where
  line_spacing : Option ℚ
  line_spacing_type : String
  space_before_pt : ℚ
  space_after_pt : ℚ
deriving DecidableEq

/-- The style-chain walk of `get_placeholder_paragraph_defaults`: shape has a
placeholder format, a layout placeholder with matching `idx` exists (first
match in iteration order), and its `txBody > lstStyle > lvl1pPr` links are all
present; any absent link yields `none`. -/
def resolveLvl1 (shape : PlaceholderShape) : Option Lvl1PProps :=
  match shape.placeholderIdx with
  | none => none
  | some ph_idx =>
    match shape.layoutPlaceholders.find? (fun ph => ph.idx == ph_idx) with
    | none => none
    | some layout_shape =>
      (layout_shape.txBody.bind (·.lstStyle)).bind (·.lvl1pPr)

/-- `get_placeholder_paragraph_defaults(shape)`: the all-default result when
the chain breaks, otherwise the converted level-1 values — `spcPct` line
spacing becomes `val / 100000` tagged `"ratio"`, else `spcPts` becomes
`val / 100` tagged `"fixed_pt"`; `spcBef`/`spcAft` convert only `spcPts` by
`val / 100` (a `spcPct` there is logged as unsupported and left at `0.0`). -/
def get_placeholder_paragraph_defaults (shape : PlaceholderShape) :
    ParagraphDefaults :=
  match resolveLvl1 shape with
  | none => ⟨none, "default", 0, 0⟩
  | some lvl1 =>
    let ls : Option ℚ × String :=
      match lvl1.lnSpc with
      | none => (none, "default")
      | some ln =>
        match ln.spcPct with
        | some v => (some ((v : ℚ) / 100000), "ratio")
        | none =>
          match ln.spcPts with
          | some v => (some ((v : ℚ) / 100), "fixed_pt")
          | none => (none, "default")
    let sb : ℚ :=
      match lvl1.spcBef with
      | none => 0
      | some sp =>
        match sp.spcPts with
        | some v => (v : ℚ) / 100
        | none => 0
    let sa : ℚ :=
      match lvl1.spcAft with
      | none => 0
      | some sp =>
        match sp.spcPts with
        | some v => (v : ℚ) / 100
        | none => 0
    ⟨ls.1, ls.2, sb, sa⟩

/-! ## Concrete artifacts used by witnesses and counterexamples -/

/-- A tiny two-directory filesystem: `dirA` holds `alpha.ttf` (family
`Alpha`), `dirB` holds `beta.ttf` (family `Beta`). -/
def fsAB : FontFS where
  isdir := fun d => d == "dirA" || d == "dirB"
  listdir := fun d =>
    if d == "dirA" then some ["alpha.ttf"]
    else if d == "dirB" then some ["beta.ttf"]
    else none
  fontNamesOf := fun p =>
    if p == "dirA/alpha.ttf" then [("Alpha Regular", "Alpha", "Regular")]
    else if p == "dirB/beta.ttf" then [("Beta Regular", "Beta", "Regular")]
    else []
  isfile := fun p => p == "dirA/alpha.ttf" || p == "dirB/beta.ttf"

/-- A measurement oracle that always reports width `0`. -/
def mConst : Measure := fun _ _ _ => some 0

/-- A measurement oracle that always reports width `1`. -/
def mOne : Measure := fun _ _ _ => some 1

/-! ## Lemmas about the candidate-size list -/

theorem mem_candidateSizes {s m : ℤ} :
    s ∈ candidateSizes m ↔ 6 ≤ s ∧ s ≤ m := by
  simp only [candidateSizes, List.mem_map, List.mem_range]
  constructor
  · rintro ⟨i, hi, rfl⟩
    constructor <;> omega
  · rintro ⟨h6, hm⟩
    refine ⟨(m - s).toNat, by omega, by omega⟩

theorem candidateSizes_cons {m : ℤ} (hm : 6 ≤ m) :
    candidateSizes m = m :: candidateSizes (m - 1) := by
  have h : (m - 5).toNat = (m - 1 - 5).toNat + 1 := by omega
  simp only [candidateSizes, h, List.range_succ_eq_map, List.map_cons,
    List.map_map, Nat.cast_zero, sub_zero]
  congr 1
  refine List.map_congr_left fun i _ => ?_
  simp only [Function.comp_apply]
  push_cast
  omega

theorem candidateSizes_sorted (m : ℤ) :
    (candidateSizes m).Pairwise (fun a b => b < a) := by
  rw [candidateSizes, List.pairwise_map]
  exact (List.pairwise_lt_range _).imp (fun h => by omega)

/-! ## Lemmas about the per-item measuring loop -/

theorem measureItems_nil (measure : Measure) (fp : String) (a : ℚ) (s : ℤ) :
    measureItems measure fp a s [] = .ok 0 := rfl

theorem measureItems_error_cases {measure : Measure} {fp : String} {a : ℚ}
    {s : ℤ} {items : List String} {e : FitError}
    (h : measureItems measure fp a s items = .error e) :
    e = .measurementFailure ∨ e = .divisionByZero := by
  induction items with
  | nil => simp [measureItems] at h
  | cons it rest ih =>
    rw [measureItems] at h
    cases hme : measure it fp s with
    | none =>
      simp only [hme] at h
      injection h with h'
      exact Or.inl h'.symm
    | some w =>
      simp only [hme] at h
      by_cases ha : a = 0
      · simp only [ha, reduceIte] at h
        injection h with h'
        exact Or.inr h'.symm
      · simp only [ha, reduceIte] at h
        cases hrec : measureItems measure fp a s rest with
        | error e' =>
          simp only [hrec] at h
          injection h with h'
          rw [h'] at hrec
          exact ih hrec
        | ok tl => exact Except.noConfusion (hrec ▸ h)

theorem measureItems_mf_exists {measure : Measure} {fp : String} {a : ℚ}
    {s : ℤ} {items : List String}
    (h : measureItems measure fp a s items = .error .measurementFailure) :
    ∃ it ∈ items, measure it fp s = none := by
  induction items with
  | nil => simp [measureItems] at h
  | cons it rest ih =>
    rw [measureItems] at h
    cases hme : measure it fp s with
    | none => exact ⟨it, List.mem_cons_self .., hme⟩
    | some w =>
      simp only [hme] at h
      by_cases ha : a = 0
      · simp only [ha, reduceIte] at h
        exact absurd h (by simp)
      · simp only [ha, reduceIte] at h
        cases hrec : measureItems measure fp a s rest with
        | error e' =>
          simp only [hrec] at h
          injection h with h'
          rw [h'] at hrec
          obtain ⟨it', hmem, hnone⟩ := ih hrec
          exact ⟨it', List.mem_cons_of_mem _ hmem, hnone⟩
        | ok tl => exact Except.noConfusion (hrec ▸ h)

theorem measureItems_ok_of_forall {measure : Measure} {fp : String} {a : ℚ}
    {s : ℤ} {items : List String}
    (hs : ∀ it ∈ items, (measure it fp s).isSome) (ha : a ≠ 0) :
    ∃ tl, measureItems measure fp a s items = .ok tl := by
  induction items with
  | nil => exact ⟨0, rfl⟩
  | cons it rest ih =>
    obtain ⟨w, hw⟩ := Option.isSome_iff_exists.mp (hs it (List.mem_cons_self ..))
    obtain ⟨tl, htl⟩ := ih (fun it' h' => hs it' (List.mem_cons_of_mem _ h'))
    refine ⟨wrapLines a w + tl, ?_⟩
    rw [measureItems]
    simp only [hw, ha, reduceIte, htl]

theorem measureItems_no_dvz {measure : Measure} {fp : String} {a : ℚ}
    {s : ℤ} {items : List String} (ha : a ≠ 0) :
    measureItems measure fp a s items ≠ .error .divisionByZero := by
  intro h
  induction items with
  | nil => simp [measureItems] at h
  | cons it rest ih =>
    rw [measureItems] at h
    cases hme : measure it fp s with
    | none =>
      simp only [hme] at h
      exact absurd h (by simp)
    | some w =>
      simp only [hme, ha, reduceIte] at h
      cases hrec : measureItems measure fp a s rest with
      | error e' =>
        simp only [hrec] at h
        injection h with h'
        rw [h'] at hrec
        exact ih hrec
      | ok tl => exact Except.noConfusion (hrec ▸ h)

theorem measureItems_nonneg {measure : Measure} {fp : String} {a : ℚ}
    {s : ℤ} {items : List String} {tl : ℤ}
    (h : measureItems measure fp a s items = .ok tl) : 0 ≤ tl := by
  induction items generalizing tl with
  | nil =>
    rw [measureItems] at h
    injection h with h'
    omega
  | cons it rest ih =>
    rw [measureItems] at h
    cases hme : measure it fp s with
    | none => exact Except.noConfusion (hme ▸ h)
    | some w =>
      simp only [hme] at h
      by_cases ha : a = 0
      · simp only [ha, reduceIte] at h
        exact absurd h (by simp)
      · simp only [ha, reduceIte] at h
        cases hrec : measureItems measure fp a s rest with
        | error e' => exact Except.noConfusion (hrec ▸ h)
        | ok tl' =>
          simp only [hrec] at h
          injection h with h'
          have h1 : (1 : ℤ) ≤ wrapLines a w := le_max_left _ _
          have h2 := ih hrec
          omega

theorem wrapLines_mono {a ws wt : ℚ} (ha : 0 < a) (hw : ws ≤ wt) :
    wrapLines a ws ≤ wrapLines a wt := by
  unfold wrapLines
  refine max_le_max le_rfl (Int.floor_le_floor ?_)
  exact (div_le_div_iff_of_pos_right ha).mpr (by linarith)

theorem measureItems_mono {measure : Measure} {fp : String} {a : ℚ}
    {s t : ℤ} {items : List String} {tls tlt : ℤ}
    (hmono : ∀ it ∈ items, ∀ u v : ℤ, ∀ wu wv : ℚ, u ≤ v →
      measure it fp u = some wu → measure it fp v = some wv → wu ≤ wv)
    (ha : 0 ≤ a) (hst : s ≤ t)
    (hs : measureItems measure fp a s items = .ok tls)
    (ht : measureItems measure fp a t items = .ok tlt) :
    tls ≤ tlt := by
  induction items generalizing tls tlt with
  | nil =>
    rw [measureItems] at hs ht
    injection hs with hs'
    injection ht with ht'
    omega
  | cons it rest ih =>
    rw [measureItems] at hs ht
    cases hms : measure it fp s with
    | none => exact Except.noConfusion (hms ▸ hs)
    | some ws =>
      cases hmt : measure it fp t with
      | none => exact Except.noConfusion (hmt ▸ ht)
      | some wt =>
        simp only [hms] at hs
        simp only [hmt] at ht
        by_cases h0 : a = 0
        · simp only [h0, reduceIte] at hs
          exact absurd hs (by simp)
        · simp only [h0, reduceIte] at hs ht
          cases hrs : measureItems measure fp a s rest with
          | error e => exact Except.noConfusion (hrs ▸ hs)
          | ok tls' =>
            cases hrt : measureItems measure fp a t rest with
            | error e => exact Except.noConfusion (hrt ▸ ht)
            | ok tlt' =>
              simp only [hrs] at hs
              simp only [hrt] at ht
              injection hs with hs'
              injection ht with ht'
              have hapos : 0 < a := lt_of_le_of_ne ha (Ne.symm h0)
              have hww : ws ≤ wt :=
                hmono it (List.mem_cons_self ..) s t ws wt hst hms hmt
              have hwl := wrapLines_mono hapos hww
              have hrest := ih
                (fun it' h' => hmono it' (List.mem_cons_of_mem _ h')) hrs hrt
              omega

/-! ## Lemmas about the size scan -/

theorem fitLoop_cons (measure : Measure) (fp : String) (req : FittingRequest)
    (s : ℤ) (rest : List ℤ) :
    fitLoop measure fp req (s :: rest) =
      match measureItems measure fp (widthPx req) s req.items with
      | .error e => .error e
      | .ok tl =>
        if totalHeightNeeded req tl s ≤ req.height_pt then .ok s
        else fitLoop measure fp req rest := rfl

theorem fitLoop_nofit {measure : Measure} {fp : String} {req : FittingRequest}
    {l : List ℤ}
    (h : ∀ s ∈ l, ∃ hgt, requiredHeightAt measure fp req s = some hgt ∧
      req.height_pt < hgt) :
    fitLoop measure fp req l = .ok MIN_FONT_SIZE := by
  induction l with
  | nil => rfl
  | cons s rest ih =>
    obtain ⟨hgt, hsome, hlt⟩ := h s (List.mem_cons_self ..)
    rw [requiredHeightAt] at hsome
    rw [fitLoop]
    cases hmi : measureItems measure fp (widthPx req) s req.items with
    | error e => exact Option.noConfusion (hmi ▸ hsome)
    | ok tl =>
      simp only [hmi] at hsome ⊢
      injection hsome with hsome'
      rw [if_neg (by rw [hsome']; exact not_le.mpr hlt)]
      exact ih (fun s' h' => h s' (List.mem_cons_of_mem _ h'))

theorem fitLoop_mem_or_min {measure : Measure} {fp : String}
    {req : FittingRequest} {l : List ℤ} {r : ℤ}
    (h : fitLoop measure fp req l = .ok r) :
    r ∈ l ∨ r = MIN_FONT_SIZE := by
  induction l with
  | nil =>
    rw [fitLoop] at h
    injection h with h'
    exact Or.inr h'.symm
  | cons s rest ih =>
    rw [fitLoop] at h
    cases hmi : measureItems measure fp (widthPx req) s req.items with
    | error e => exact Except.noConfusion (hmi ▸ h)
    | ok tl =>
      simp only [hmi] at h
      by_cases hc : totalHeightNeeded req tl s ≤ req.height_pt
      · rw [if_pos hc] at h
        injection h with h'
        exact Or.inl (h' ▸ List.mem_cons_self ..)
      · rw [if_neg hc] at h
        rcases ih h with hm | hm
        · exact Or.inl (List.mem_cons_of_mem _ hm)
        · exact Or.inr hm

theorem fitLoop_largest {measure : Measure} {fp : String} {req : FittingRequest}
    {l : List ℤ} (hsort : l.Pairwise (fun x y => y < x)) {r : ℤ}
    (h : fitLoop measure fp req l = .ok r) :
    ∀ t ∈ l, fitsAt measure fp req t → t ≤ r := by
  induction l with
  | nil => intro t ht; cases ht
  | cons s rest ih =>
    rw [fitLoop] at h
    rw [List.pairwise_cons] at hsort
    intro t ht hfit
    cases hmi : measureItems measure fp (widthPx req) s req.items with
    | error e => exact Except.noConfusion (hmi ▸ h)
    | ok tl =>
      simp only [hmi] at h
      by_cases hc : totalHeightNeeded req tl s ≤ req.height_pt
      · rw [if_pos hc] at h
        injection h with h'
        rcases List.mem_cons.mp ht with rfl | hmem
        · omega
        · have := hsort.1 t hmem
          omega
      · rw [if_neg hc] at h
        rcases List.mem_cons.mp ht with rfl | hmem
        · obtain ⟨hgt, hsome, hle⟩ := hfit
          rw [requiredHeightAt] at hsome
          simp only [hmi] at hsome
          injection hsome with hsome'
          exact absurd (hsome' ▸ hle) hc
        · exact ih hsort.2 h t hmem hfit

theorem fitLoop_ok_exists {measure : Measure} {fp : String}
    {req : FittingRequest} {l : List ℤ}
    (h : ∀ s ∈ l, ∃ tl, measureItems measure fp (widthPx req) s req.items = .ok tl) :
    ∃ r, fitLoop measure fp req l = .ok r := by
  induction l with
  | nil => exact ⟨MIN_FONT_SIZE, rfl⟩
  | cons s rest ih =>
    obtain ⟨tl, htl⟩ := h s (List.mem_cons_self ..)
    obtain ⟨r, hr⟩ := ih (fun s' h' => h s' (List.mem_cons_of_mem _ h'))
    rw [fitLoop]
    by_cases hc : totalHeightNeeded req tl s ≤ req.height_pt
    · exact ⟨s, by simp only [htl, hc, reduceIte]⟩
    · exact ⟨r, by simp only [htl, hc, reduceIte]; exact hr⟩

theorem fitLoop_not_fnf {measure : Measure} {fp : String} {req : FittingRequest}
    {l : List ℤ} : fitLoop measure fp req l ≠ .error .fontNotFound := by
  intro h
  induction l with
  | nil =>
    rw [fitLoop] at h
    exact Except.noConfusion h
  | cons s rest ih =>
    rw [fitLoop] at h
    cases hmi : measureItems measure fp (widthPx req) s req.items with
    | error e =>
      simp only [hmi] at h
      injection h with h'
      rcases measureItems_error_cases hmi with he | he <;>
        exact FitError.noConfusion (he ▸ h')
    | ok tl =>
      simp only [hmi] at h
      by_cases hc : totalHeightNeeded req tl s ≤ req.height_pt
      · rw [if_pos hc] at h; exact Except.noConfusion h
      · rw [if_neg hc] at h; exact ih h

theorem fitLoop_no_dvz {measure : Measure} {fp : String} {req : FittingRequest}
    {l : List ℤ} (ha : widthPx req ≠ 0) :
    fitLoop measure fp req l ≠ .error .divisionByZero := by
  intro h
  induction l with
  | nil =>
    rw [fitLoop] at h
    exact Except.noConfusion h
  | cons s rest ih =>
    rw [fitLoop] at h
    cases hmi : measureItems measure fp (widthPx req) s req.items with
    | error e =>
      simp only [hmi] at h
      injection h with h'
      exact measureItems_no_dvz ha (h' ▸ hmi)
    | ok tl =>
      simp only [hmi] at h
      by_cases hc : totalHeightNeeded req tl s ≤ req.height_pt
      · rw [if_pos hc] at h; exact Except.noConfusion h
      · rw [if_neg hc] at h; exact ih h

theorem fitLoop_mf_exists {measure : Measure} {fp : String} {req : FittingRequest}
    {l : List ℤ}
    (h : fitLoop measure fp req l = .error .measurementFailure) :
    ∃ s ∈ l, ∃ it ∈ req.items, measure it fp s = none := by
  induction l with
  | nil => exact absurd h (by rw [fitLoop]; simp)
  | cons s rest ih =>
    rw [fitLoop] at h
    cases hmi : measureItems measure fp (widthPx req) s req.items with
    | error e =>
      simp only [hmi] at h
      injection h with h'
      rw [h'] at hmi
      obtain ⟨it, hmem, hnone⟩ := measureItems_mf_exists hmi
      exact ⟨s, List.mem_cons_self .., it, hmem, hnone⟩
    | ok tl =>
      simp only [hmi] at h
      by_cases hc : totalHeightNeeded req tl s ≤ req.height_pt
      · rw [if_pos hc] at h; exact Except.noConfusion h
      · rw [if_neg hc] at h
        obtain ⟨s', hmem, hrest⟩ := ih h
        exact ⟨s', List.mem_cons_of_mem _ hmem, hrest⟩

theorem measureItems_cons_ok_ne_zero {measure : Measure} {fp : String} {a : ℚ}
    {s : ℤ} {it : String} {rest : List String} {tl : ℤ}
    (h : measureItems measure fp a s (it :: rest) = .ok tl) : a ≠ 0 := by
  intro ha
  rw [measureItems] at h
  cases hme : measure it fp s with
  | none => exact Except.noConfusion (hme ▸ h)
  | some w =>
    simp only [hme, ha, reduceIte] at h
    exact absurd h (by simp)

/-- `0 ≤ widthPx req` whenever the request's width is nonnegative. -/
theorem widthPx_nonneg {req : FittingRequest} (hw : 0 ≤ req.width_pt) :
    0 ≤ widthPx req := by
  have : (0 : ℚ) < pt_to_px := by norm_num [pt_to_px, DEFAULT_DPI]
  exact mul_nonneg hw this.le

theorem lineHeight_fixed {req : FittingRequest} (h : req.is_fixed_line_spacing = true)
    (s : ℤ) : lineHeight req s = req.line_spacing := by
  simp [lineHeight, h]

theorem lineHeight_ratio {req : FittingRequest} (h : req.is_fixed_line_spacing = false)
    (s : ℤ) : lineHeight req s = (s : ℚ) * req.line_height_factor * req.line_spacing := by
  simp [lineHeight, h]

/-- Downward closure of fitting: under nonnegative width and spacing
parameters and a size-monotone measurement oracle, a size below a fitting
size also fits (provided its own measurements succeed). -/
theorem fits_mono {measure : Measure} {fp : String} {req : FittingRequest}
    (hmono : ∀ it ∈ req.items, ∀ u v : ℤ, ∀ wu wv : ℚ, u ≤ v →
      measure it fp u = some wu → measure it fp v = some wv → wu ≤ wv)
    (hwidth : 0 ≤ req.width_pt) (hls : 0 ≤ req.line_spacing)
    (hfac : 0 ≤ req.line_height_factor)
    {S s' : ℤ} (h6 : 6 ≤ s') (hle : s' ≤ S)
    (hmeas' : ∀ it ∈ req.items, (measure it fp s').isSome)
    (hfS : fitsAt measure fp req S) : fitsAt measure fp req s' := by
  obtain ⟨hS, hsomeS, hleS⟩ := hfS
  rw [requiredHeightAt] at hsomeS
  cases hmiS : measureItems measure fp (widthPx req) S req.items with
  | error e => exact Option.noConfusion (hmiS ▸ hsomeS)
  | ok tlS =>
    simp only [hmiS] at hsomeS
    injection hsomeS with hSeq
    have hmi' : ∃ tl', measureItems measure fp (widthPx req) s' req.items = .ok tl' := by
      cases hitems : req.items with
      | nil => exact ⟨0, rfl⟩
      | cons it rest =>
        have ha : widthPx req ≠ 0 :=
          measureItems_cons_ok_ne_zero (hitems ▸ hmiS)
        exact measureItems_ok_of_forall (hitems ▸ hmeas') ha
    obtain ⟨tl', hmi'⟩ := hmi'
    have htl : tl' ≤ tlS :=
      measureItems_mono hmono (widthPx_nonneg hwidth) hle hmi' hmiS
    have htlS0 : (0 : ℤ) ≤ tlS := measureItems_nonneg hmiS
    have hlh : (tl' : ℚ) * lineHeight req s' ≤ (tlS : ℚ) * lineHeight req S := by
      cases hfix : req.is_fixed_line_spacing with
      | true =>
        simp only [lineHeight_fixed hfix]
        exact mul_le_mul_of_nonneg_right (by exact_mod_cast htl) hls
      | false =>
        simp only [lineHeight_ratio hfix]
        have hs0 : (0 : ℚ) ≤ (s' : ℚ) := by exact_mod_cast (by omega : (0:ℤ) ≤ s')
        have hlh0 : (0 : ℚ) ≤ (s' : ℚ) * req.line_height_factor * req.line_spacing :=
          mul_nonneg (mul_nonneg hs0 hfac) hls
        have hlhle : (s' : ℚ) * req.line_height_factor * req.line_spacing ≤
            (S : ℚ) * req.line_height_factor * req.line_spacing :=
          mul_le_mul_of_nonneg_right
            (mul_le_mul_of_nonneg_right (by exact_mod_cast hle) hfac) hls
        exact mul_le_mul (by exact_mod_cast htl) hlhle hlh0 (by exact_mod_cast htlS0)
    have hheights : totalHeightNeeded req tl' s' ≤ totalHeightNeeded req tlS S := by
      unfold totalHeightNeeded
      exact add_le_add_right hlh _
    exact ⟨totalHeightNeeded req tl' s', by rw [requiredHeightAt]; simp only [hmi'],
      le_trans hheights (hSeq ▸ hleS)⟩

/-! ## Claim theorems: the fitting engine -/

/-- C2: when the font resolves and every candidate size in `[6, max_size]`
yields a required height exceeding the available height, the engine returns
exactly `MIN_FONT_SIZE = 6` and raises no error. -/
theorem floor_when_nothing_fits (fs : FontFS) (st : FontMapping)
    (measure : Measure) (req : FittingRequest) (fp : String)
    (hfp : find_font_file fs st req.font_name req.font_dir = some fp)
    (hnofit : ∀ s ∈ candidateSizes req.max_size,
      ∃ hgt, requiredHeightAt measure fp req s = some hgt ∧ req.height_pt < hgt) :
    calculate_fitting_font_size fs st measure req = .ok MIN_FONT_SIZE := by
  rw [calculate_fitting_font_size, hfp]
  exact fitLoop_nofit hnofit

/-- Request used by the C2 witness: one item of width `0` still needs height
`6 · 1.0 · 1.0 = 6 pt` at the single candidate size `6`, exceeding the `1 pt`
frame. -/
def reqNoFit : FittingRequest :=
  ⟨3, 1, ["a"], 6, "Alpha", "dirA", 1, 0, 0, 1, false⟩

/-- Witness for C2 at a concrete request on which nothing fits. -/
theorem floor_when_nothing_fits_witness :
    calculate_fitting_font_size fsAB [] mConst reqNoFit = .ok MIN_FONT_SIZE := by
  refine floor_when_nothing_fits fsAB [] mConst reqNoFit "dirA/alpha.ttf"
    (by with_unfolding_all decide) ?_
  intro s hs
  have hc : candidateSizes reqNoFit.max_size = [6] := by with_unfolding_all decide
  rw [hc] at hs
  rcases List.mem_singleton.mp hs with rfl
  exact ⟨6, by with_unfolding_all decide, by norm_num [reqNoFit]⟩

/-- C3 (amended): a normally returned size `R` always satisfies
`MIN_FONT_SIZE ≤ R` and `R ≤ max max_size MIN_FONT_SIZE`; the bound
`R ≤ max_size` itself holds only when `max_size ≥ MIN_FONT_SIZE`. -/
theorem result_within_bounds (fs : FontFS) (st : FontMapping)
    (measure : Measure) (req : FittingRequest) (R : ℤ)
    (h : calculate_fitting_font_size fs st measure req = .ok R) :
    MIN_FONT_SIZE ≤ R ∧ R ≤ max req.max_size MIN_FONT_SIZE := by
  rw [calculate_fitting_font_size] at h
  cases hfp : find_font_file fs st req.font_name req.font_dir with
  | none => exact Except.noConfusion (hfp ▸ h)
  | some fp =>
    simp only [hfp] at h
    rcases fitLoop_mem_or_min h with hm | hm
    · have := mem_candidateSizes.mp hm
      constructor
      · rw [MIN_FONT_SIZE]; omega
      · have : R ≤ req.max_size := this.2
        omega
    · rw [hm, MIN_FONT_SIZE]
      constructor <;> omega

/-- Request with `max_size = 3 < 6` used to refute C3 as stated and to
witness the amended bound. -/
def reqSmallMax : FittingRequest :=
  ⟨100, 100, [], 3, "Alpha", "dirA", 1, 0, 0, 1, false⟩

/-- Counterexample to C3 as stated: with `max_size = 3` the engine returns
normally with `6`, and `6 ≤ max_size` is false — the returned size is not
bounded by `max_size` for every value of `max_size`. -/
theorem result_within_bounds_claim_false :
    calculate_fitting_font_size fsAB [] mConst reqSmallMax = .ok 6 ∧
      ¬ ((6 : ℤ) ≤ reqSmallMax.max_size) := by
  constructor
  · with_unfolding_all decide
  · with_unfolding_all decide

/-- Witness for the amended C3 bound at a concrete request. -/
theorem result_within_bounds_witness :
    MIN_FONT_SIZE ≤ (6 : ℤ) ∧ (6 : ℤ) ≤ max reqSmallMax.max_size MIN_FONT_SIZE :=
  result_within_bounds fsAB [] mConst reqSmallMax 6 (by with_unfolding_all decide)

/-- C10: with an empty items list, a resolving font, nonnegative combined
paragraph spacing, nonnegative height and `max_size ≥ 6`, the engine returns
`max_size`: the total line count is `0`, so the required height is
`-(space_before_pt + space_after_pt) ≤ 0 ≤ height_pt` and the very first
(largest) candidate fits. -/
theorem empty_items_returns_max (fs : FontFS) (st : FontMapping)
    (measure : Measure) (req : FittingRequest) (fp : String)
    (hfp : find_font_file fs st req.font_name req.font_dir = some fp)
    (hempty : req.items = [])
    (hsp : 0 ≤ req.space_before_pt + req.space_after_pt)
    (hh : 0 ≤ req.height_pt)
    (hmax : MIN_FONT_SIZE ≤ req.max_size) :
    calculate_fitting_font_size fs st measure req = .ok req.max_size := by
  rw [calculate_fitting_font_size, hfp]
  show fitLoop measure fp req (candidateSizes req.max_size) = .ok req.max_size
  rw [MIN_FONT_SIZE] at hmax
  rw [candidateSizes_cons hmax, fitLoop_cons]
  have hmi : measureItems measure fp (widthPx req) req.max_size req.items = .ok 0 := by
    rw [hempty]; rfl
  simp only [hmi]
  rw [if_pos ?_]
  have hlen : ((req.items.length : ℚ) - 1) = -1 := by rw [hempty]; norm_num
  rw [totalHeightNeeded, hlen]
  push_cast
  nlinarith [hsp, hh]

/-- C1 (amended): assuming additionally that the request's `width_pt`,
`line_spacing` and `line_height_factor` are nonnegative — if a candidate size
`S` fits then every candidate size `s' ≤ S` fits, and the size the
largest-first scan returns bounds every fitting candidate from above (the
first fit found is the largest fit). -/
theorem fit_scan_monotone (fs : FontFS) (st : FontMapping) (measure : Measure)
    (req : FittingRequest) (fp : String)
    (hfp : find_font_file fs st req.font_name req.font_dir = some fp)
    (hmeasAll : ∀ s ∈ candidateSizes req.max_size, ∀ it ∈ req.items,
      (measure it fp s).isSome)
    (hmono : ∀ it ∈ req.items, ∀ u v : ℤ, ∀ wu wv : ℚ, u ≤ v →
      measure it fp u = some wu → measure it fp v = some wv → wu ≤ wv)
    (hwidth : 0 ≤ req.width_pt) (hls : 0 ≤ req.line_spacing)
    (hfac : 0 ≤ req.line_height_factor) :
    (∀ S s', S ∈ candidateSizes req.max_size → s' ∈ candidateSizes req.max_size →
      s' ≤ S → fitsAt measure fp req S → fitsAt measure fp req s') ∧
    (∀ r, calculate_fitting_font_size fs st measure req = .ok r →
      ∀ t ∈ candidateSizes req.max_size, fitsAt measure fp req t → t ≤ r) := by
  constructor
  · intro S s' hS hs' hle hfitS
    have h6 : 6 ≤ s' := (mem_candidateSizes.mp hs').1
    exact fits_mono hmono hwidth hls hfac h6 hle (hmeasAll s' hs') hfitS
  · intro r hr t ht hfit
    rw [calculate_fitting_font_size, hfp] at hr
    exact fitLoop_largest (candidateSizes_sorted _) hr t ht hfit

/-- Request refuting the un-amended C1: `line_spacing = -1` (a value the code
accepts) makes the required height grow as the font size shrinks. -/
def reqNegSpacing : FittingRequest :=
  ⟨3, 0, ["a", "b"], 12, "Alpha", "dirA", -1, 10, 10, 1, false⟩

/-- Counterexample to C1 as stated: for `reqNegSpacing` the font resolves,
every measurement succeeds, the measurement oracle is monotone in size, the
candidate size `12` fits, `9` is a smaller candidate — yet `9` does not fit.
Downward closure of fitting fails without a nonnegativity assumption on the
spacing parameters. -/
theorem fit_scan_monotone_claim_false :
    (∀ it fpp s, (mConst it fpp s).isSome) ∧
    (∀ it ∈ reqNegSpacing.items, ∀ u v : ℤ, ∀ wu wv : ℚ, u ≤ v →
      mConst it "dirA/alpha.ttf" u = some wu →
      mConst it "dirA/alpha.ttf" v = some wv → wu ≤ wv) ∧
    find_font_file fsAB [] reqNegSpacing.font_name reqNegSpacing.font_dir =
      some "dirA/alpha.ttf" ∧
    (12 : ℤ) ∈ candidateSizes reqNegSpacing.max_size ∧
    (9 : ℤ) ∈ candidateSizes reqNegSpacing.max_size ∧ (9 : ℤ) ≤ 12 ∧
    fitsAt mConst "dirA/alpha.ttf" reqNegSpacing 12 ∧
    ¬ fitsAt mConst "dirA/alpha.ttf" reqNegSpacing 9 := by
  refine ⟨fun _ _ _ => rfl, ?_, ?_, ?_, ?_, ?_, ?_, ?_⟩
  · intro it _ u v wu wv _ hu hv
    simp only [mConst] at hu hv
    injection hu with hu'
    injection hv with hv'
    rw [← hu', ← hv']
  · with_unfolding_all decide
  · with_unfolding_all decide
  · with_unfolding_all decide
  · with_unfolding_all decide
  · with_unfolding_all decide
  · with_unfolding_all decide

/-- Request on which every candidate fits, used by the C1 witness. -/
def reqAllFit : FittingRequest :=
  ⟨3, 100, ["a"], 8, "Alpha", "dirA", 1, 0, 0, 1, false⟩

/-- Witness for the amended C1 at a concrete request: size 8 fits, so the
downward-closure part yields that the smallest candidate 6 fits too. -/
theorem fit_scan_monotone_witness :
    fitsAt mConst "dirA/alpha.ttf" reqAllFit 6 :=
  (fit_scan_monotone fsAB [] mConst reqAllFit "dirA/alpha.ttf"
    (by with_unfolding_all decide)
    (fun _ _ _ _ => rfl)
    (fun it _ u v wu wv _ hu hv => by
      simp only [mConst] at hu hv
      injection hu with hu'
      injection hv with hv'
      rw [← hu', ← hv'])
    (by norm_num [reqAllFit]) (by norm_num [reqAllFit])
    (by norm_num [reqAllFit])).1 8 6
    (by with_unfolding_all decide) (by with_unfolding_all decide)
    (by norm_num) (by with_unfolding_all decide)

/-- Request with an empty items list used by the C10 witness. -/
def reqEmptyItems : FittingRequest :=
  ⟨3, 50, [], 40, "Alpha", "dirA", 1, 4, 4, 1, false⟩

/-- Witness for C10 at a concrete empty-items request. -/
theorem empty_items_returns_max_witness :
    calculate_fitting_font_size fsAB [] mConst reqEmptyItems = .ok reqEmptyItems.max_size :=
  empty_items_returns_max fsAB [] mConst reqEmptyItems "dirA/alpha.ttf"
    (by with_unfolding_all decide) rfl (by norm_num [reqEmptyItems])
    (by norm_num [reqEmptyItems]) (by with_unfolding_all decide)

/-- C5 (amended): provided the available pixel width is nonzero, the engine
errors exactly as the claim describes — `fontNotFound` if and only if the
font name does not resolve; a `measurementFailure` only when the font
resolved and some measurement during the scan returned absence; a normal
integer return whenever the font resolves and every measurement succeeds;
and never a division error.  (With a zero pixel width the scan instead hits
Python's float floor-division by zero.) -/
theorem error_taxonomy (fs : FontFS) (st : FontMapping) (measure : Measure)
    (req : FittingRequest) (hw : widthPx req ≠ 0) :
    (calculate_fitting_font_size fs st measure req = .error .fontNotFound ↔
      find_font_file fs st req.font_name req.font_dir = none) ∧
    (∀ fp, find_font_file fs st req.font_name req.font_dir = some fp →
      calculate_fitting_font_size fs st measure req = .error .measurementFailure →
      ∃ s ∈ candidateSizes req.max_size, ∃ it ∈ req.items, measure it fp s = none) ∧
    (∀ fp, find_font_file fs st req.font_name req.font_dir = some fp →
      (∀ s ∈ candidateSizes req.max_size, ∀ it ∈ req.items, (measure it fp s).isSome) →
      ∃ r, calculate_fitting_font_size fs st measure req = .ok r) ∧
    calculate_fitting_font_size fs st measure req ≠ .error .divisionByZero := by
  refine ⟨⟨?_, ?_⟩, ?_, ?_, ?_⟩
  · intro h
    cases hfp : find_font_file fs st req.font_name req.font_dir with
    | none => rfl
    | some fp =>
      rw [calculate_fitting_font_size, hfp] at h
      exact absurd h fitLoop_not_fnf
  · intro h
    rw [calculate_fitting_font_size, h]
  · intro fp hfp h
    rw [calculate_fitting_font_size, hfp] at h
    exact fitLoop_mf_exists h
  · intro fp hfp hmeas
    rw [calculate_fitting_font_size, hfp]
    exact fitLoop_ok_exists (fun s hs =>
      measureItems_ok_of_forall (hmeas s hs) hw)
  · intro h
    cases hfp : find_font_file fs st req.font_name req.font_dir with
    | none =>
      rw [calculate_fitting_font_size, hfp] at h
      injection h with h'
      exact FitError.noConfusion h'
    | some fp =>
      rw [calculate_fitting_font_size, hfp] at h
      exact absurd h (fitLoop_no_dvz hw)

/-- Request with `width_pt = 0` and a non-empty item: the scan divides the
measured width by a zero pixel width. -/
def reqZeroWidth : FittingRequest :=
  ⟨0, 100, ["x"], 6, "Alpha", "dirA", 1, 0, 0, 1, false⟩

/-- Counterexample to C5 as stated: on `reqZeroWidth` the font resolves and
every measurement succeeds, yet the call neither returns normally nor raises
one of the two errors named by the claim — it raises the division error that
Python's `//` produces at `width_px = 0`.  The claimed "if and only if" is
therefore false without a nonzero-width proviso. -/
theorem error_taxonomy_claim_false :
    find_font_file fsAB [] reqZeroWidth.font_name reqZeroWidth.font_dir =
      some "dirA/alpha.ttf" ∧
    (∀ it fpp s, (mOne it fpp s).isSome) ∧
    calculate_fitting_font_size fsAB [] mOne reqZeroWidth =
      .error .divisionByZero ∧
    FitError.divisionByZero ≠ FitError.fontNotFound ∧
    FitError.divisionByZero ≠ FitError.measurementFailure := by
  refine ⟨?_, fun _ _ _ => rfl, ?_, ?_, ?_⟩
  · with_unfolding_all decide
  · with_unfolding_all decide
  · with_unfolding_all decide
  · with_unfolding_all decide

/-- Witness for the amended C5: at a nonzero-width request whose font
resolves and whose measurements all succeed, the engine returns normally. -/
theorem error_taxonomy_witness :
    ∃ r, calculate_fitting_font_size fsAB [] mConst reqAllFit = .ok r :=
  (error_taxonomy fsAB [] mConst reqAllFit
    (by norm_num [widthPx, pt_to_px, DEFAULT_DPI, reqAllFit])).2.2.1
    "dirA/alpha.ttf" (by with_unfolding_all decide) (fun _ _ _ _ => rfl)

/-- C4 (amended): the scan charges `max 1 ⌊(w + a - 1) / a⌋` wrapped lines to
an item of measured width `w` with available pixel width `a`; whenever `w`
and `a` are integers with `a > 0` this equals the claimed
`max 1 ⌈w / a⌉`.  (The two differ for fractional `a`.) -/
theorem wrap_count_integer (w a : ℤ) (ha : 0 < a) :
    wrapLines (a : ℚ) (w : ℚ) = max 1 ⌈(w : ℚ) / (a : ℚ)⌉ := by
  have ha' : (0:ℚ) < (a:ℚ) := by exact_mod_cast ha
  set q : ℤ := (w + a - 1) / a with hq
  set r : ℤ := (w + a - 1) % a with hr
  have heq : a * q + r = w + a - 1 := Int.ediv_add_emod _ _
  have hr0 : 0 ≤ r := Int.emod_nonneg _ (by omega)
  have hrlt : r < a := Int.emod_lt_of_pos _ ha
  have heqQ : (a:ℚ) * (q:ℚ) + (r:ℚ) = (w:ℚ) + (a:ℚ) - 1 := by exact_mod_cast heq
  have hr0Q : (0:ℚ) ≤ (r:ℚ) := by exact_mod_cast hr0
  have hrltQ : (r:ℚ) < (a:ℚ) := by exact_mod_cast hrlt
  have hrlt1Q : (r:ℚ) + 1 ≤ (a:ℚ) := by exact_mod_cast (by omega : r + 1 ≤ a)
  have hfloor : ⌊((w:ℚ) + (a:ℚ) - 1) / (a:ℚ)⌋ = q := by
    rw [Int.floor_eq_iff]
    constructor
    · rw [le_div_iff₀ ha']
      nlinarith [heqQ, hr0Q]
    · rw [div_lt_iff₀ ha']
      nlinarith [heqQ, hrltQ]
  have hceil : ⌈(w:ℚ) / (a:ℚ)⌉ = q := by
    rw [Int.ceil_eq_iff]
    constructor
    · rw [lt_div_iff₀ ha']
      nlinarith [heqQ, hr0Q]
    · rw [div_le_iff₀ ha']
      nlinarith [heqQ, hrlt1Q]
  rw [wrapLines, hceil, hfloor]

/-- Witness for the amended C4 at `w = 10`, `a = 4`. -/
theorem wrap_count_integer_witness :
    wrapLines ((4:ℤ) : ℚ) ((10:ℤ) : ℚ) = max 1 ⌈((10:ℤ) : ℚ) / ((4:ℤ) : ℚ)⌉ :=
  wrap_count_integer 10 4 (by norm_num)

/-- Request whose width is `9/8 pt`, so the available pixel width is the
non-integer `3/2`. -/
def reqFracWidth : FittingRequest :=
  ⟨9/8, 100, ["x"], 6, "Alpha", "dirA", 1, 0, 0, 1, false⟩

/-- A measurement oracle that always reports width `2`. -/
def mTwo : Measure := fun _ _ _ => some 2

/-- Counterexample to C4 as stated: at available pixel width `a = 3/2` and
measured width `w = 2`, the scan charges `max 1 ⌊(w + a - 1) / a⌋ = 1` line to
the item, while the claimed `ceil(w / a)` (minimum 1) equals `2`. -/
theorem wrap_count_claim_false :
    widthPx reqFracWidth = 3/2 ∧
    wrapLines (widthPx reqFracWidth) 2 = 1 ∧
    max 1 ⌈(2 : ℚ) / widthPx reqFracWidth⌉ = 2 ∧
    measureItems mTwo "dirA/alpha.ttf" (widthPx reqFracWidth) 10 ["x"] = .ok 1 ∧
    (1 : ℤ) ≠ 2 := by
  refine ⟨?_, ?_, ?_, ?_, ?_⟩ <;> with_unfolding_all decide

/-! ## Claim theorems: the font-name index and file lookup -/

/-- C8 (amended): the index cache is process-wide, not keyed by directory —
a build request is a no-op exactly when the cache is non-empty, regardless of
which directory is requested; an empty cache is filled from the requested
directory; and rebuilding the same directory is idempotent. -/
theorem font_index_cache_behavior (fs : FontFS) (st : FontMapping) (d : String) :
    (st ≠ [] → initialize_font_system fs st d = st) ∧
    (st = [] → initialize_font_system fs st d = build_font_name_mapping fs d) ∧
    initialize_font_system fs (initialize_font_system fs [] d) d =
      initialize_font_system fs [] d := by
  refine ⟨fun h => ?_, fun h => ?_, ?_⟩
  · rw [initialize_font_system, if_neg h]
  · rw [initialize_font_system, if_pos h]
  · by_cases hb : build_font_name_mapping fs d = []
    · simp [initialize_font_system, hb]
    · simp [initialize_font_system, hb]

/-- Counterexample to C8 as stated: after the cache is populated from `dirA`,
a build request for the distinct directory `dirB` is a no-op that leaves
`dirA`'s mapping in place; `dirB`'s own index (which contains the key
`"beta"`) never becomes the cache, so lookups for `dirB` are *not* answered
from that directory's own index. -/
theorem font_index_per_directory_claim_false :
    initialize_font_system fsAB (initialize_font_system fsAB [] "dirA") "dirB" =
      initialize_font_system fsAB [] "dirA" ∧
    initialize_font_system fsAB (initialize_font_system fsAB [] "dirA") "dirB" ≠
      build_font_name_mapping fsAB "dirB" ∧
    lookupAssoc
      (initialize_font_system fsAB (initialize_font_system fsAB [] "dirA") "dirB")
      "beta" = none ∧
    lookupAssoc (build_font_name_mapping fsAB "dirB") "beta" = some ["beta.ttf"] := by
  refine ⟨?_, ?_, ?_, ?_⟩ <;> with_unfolding_all decide

/-- Witness for the amended C8: a populated cache makes a build request for a
different directory a no-op. -/
theorem font_index_cache_behavior_witness :
    initialize_font_system fsAB [("alpha", ["alpha.ttf"])] "dirB" =
      [("alpha", ["alpha.ttf"])] :=
  (font_index_cache_behavior fsAB [("alpha", ["alpha.ttf"])] "dirB").1
    (by with_unfolding_all decide)

/-- The filesystem of the specification's fuzzy-fallback scenario: a `fonts`
directory containing `NotoSansJP-Regular.ttf`, with no usable embedded
names. -/
def fsNoto : FontFS where
  isdir := fun d => d == "fonts"
  listdir := fun d => if d == "fonts" then some ["NotoSansJP-Regular.ttf"] else none
  fontNamesOf := fun _ => []
  isfile := fun _ => false

/-- A populated cache with no entry for "noto sans jp". -/
def stOther : FontMapping := [("other", ["Other.ttf"])]

/-- C9: `find_font_file` first serves the lowercased name from the index,
returning the first recorded file that still exists on disk; with no directory
it returns absence; and on the specification's concrete scenario — directory
containing `NotoSansJP-Regular.ttf` and no index entry for "Noto Sans JP" —
the strip-spaces-and-hyphens substring heuristic resolves the request to that
file rather than erroring. -/
theorem find_font_file_spec :
    (∀ (fs : FontFS) (st : FontMapping) (name dir : String)
      (files : List String) (f : String),
      name ≠ "" → dir ≠ "" → fs.isdir dir = true →
      lookupAssoc (get_font_name_mapping fs st dir) (strLower name) = some files →
      files.find? (fun fn => fs.isfile (pathJoin dir fn)) = some f →
      find_font_file fs st name dir = some (pathJoin dir f)) ∧
    (∀ (fs : FontFS) (st : FontMapping) (name dir : String),
      fs.isdir dir = false → find_font_file fs st name dir = none) ∧
    (∀ (fs : FontFS) (st : FontMapping) (name dir : String),
      name ≠ "" → dir ≠ "" → fs.isdir dir = true →
      (∀ files, lookupAssoc (get_font_name_mapping fs st dir) (strLower name) =
          some files →
        files.find? (fun fn => fs.isfile (pathJoin dir fn)) = none) →
      find_font_file fs st name dir = heuristicFind fs (strLower name) dir) ∧
    (lookupAssoc stOther (strLower "Noto Sans JP") = none ∧
      find_font_file fsNoto stOther "Noto Sans JP" "fonts" =
        some "fonts/NotoSansJP-Regular.ttf") := by
  refine ⟨?_, ?_, ?_, ?_, ?_⟩
  · intro fs st name dir files f hname hdir hisdir hlook hfind
    rw [find_font_file, if_neg (by simp [hname, hdir, hisdir])]
    simp only [hlook, hfind]
    rfl
  · intro fs st name dir h
    rw [find_font_file, if_pos (by simp [h])]
  · intro fs st name dir hname hdir hisdir hnone
    rw [find_font_file, if_neg (by simp [hname, hdir, hisdir])]
    cases hlook : lookupAssoc (get_font_name_mapping fs st dir) (strLower name) with
    | none => simp only [hlook]
    | some files =>
      simp only [hlook, hnone files hlook]
      rfl
  · with_unfolding_all decide
  · with_unfolding_all decide

/-- Witness for C9: the index path of `find_font_file` at a concrete
filesystem and cache. -/
theorem find_font_file_spec_witness :
    find_font_file fsAB [("alpha", ["alpha.ttf"])] "Alpha" "dirA" =
      some (pathJoin "dirA" "alpha.ttf") :=
  find_font_file_spec.1 fsAB [("alpha", ["alpha.ttf"])] "Alpha" "dirA"
    ["alpha.ttf"] "alpha.ttf" (by with_unfolding_all decide)
    (by with_unfolding_all decide) (by with_unfolding_all decide)
    (by with_unfolding_all decide) (by with_unfolding_all decide)

/-! ## Claim theorems: shape font resolution -/

theorem truthy_eq_some {w : Option String} {f : String}
    (h : truthy w = some f) : w = some f := by
  cases w with
  | none => cases h
  | some t =>
    rw [truthy] at h
    by_cases ht : t = ""
    · rw [if_pos ht] at h; cases h
    · rw [if_neg ht] at h; exact h

theorem truthy_id {w : Option String} (h : w ≠ some "") : truthy w = w := by
  cases w with
  | none => rfl
  | some t =>
    rw [truthy, if_neg]
    intro ht
    exact h (by rw [ht])

/-- After the truthiness fix, the `run.font.name` re-check is literally the
typeface treatment applied to the run's Latin typeface. -/
theorem runNameFallback_eq_typeface (run : Run) (tf : Option ThemeFonts) :
    runNameFallback run tf = typefaceFont (runFontName run) tf := rfl

/-- When the first run's `rPr` yields no font, neither does the
`run.font.name` re-check: the python-pptx accessor reads the same Latin
typeface the `rPr` pass already rejected. -/
theorem runNameFallback_none {run : Run} {tf : Option ThemeFonts}
    (h : getFontFromRPr run.rPr tf = none) : runNameFallback run tf = none := by
  cases hrpr : run.rPr with
  | none => rw [runNameFallback, runFontName, hrpr]; rfl
  | some r =>
    simp only [getFontFromRPr, hrpr] at h
    cases hea : typefaceFont r.ea tf with
    | some f => exact Option.noConfusion (hea ▸ h)
    | none =>
      rw [hea] at h
      rw [runNameFallback_eq_typeface, runFontName, hrpr]
      exact h

/-- The run level of the code equals the run level of the specification: the
extra `run.font.name` re-check is redundant. -/
theorem runLevelFont_eq_spec (runs : List Run) (tf : Option ThemeFonts) :
    runLevelFont runs tf = runLevelFontSpec runs tf := by
  cases runs with
  | nil => rfl
  | cons run rs =>
    rw [runLevelFont, runLevelFontSpec]
    cases hg : getFontFromRPr run.rPr tf with
    | some f => simp only [hg]
    | none => simp only [hg, runNameFallback_none hg]

/-- Well-formedness of a theme-font map: the major-Latin slot is absent or a
non-empty name (the tail of the Python `or` chain returns its last operand
verbatim, so an empty-string slot would be returned as-is). -/
def themeMajorLatinOk : Option ThemeFonts → Prop
  | none => True
  | some t => t.major_latin ≠ some ""

instance : (tf : Option ThemeFonts) → Decidable (themeMajorLatinOk tf)
  | none => .isTrue trivial
  | some t => inferInstanceAs (Decidable (t.major_latin ≠ some ""))

theorem themeFallback_of_spec {tf : Option ThemeFonts} {f : String}
    (h : themeFallbackSpec tf = some f) : themeFallback tf = some f := by
  cases tf with
  | none => cases h
  | some t =>
    rw [themeFallbackSpec] at h
    rw [themeFallback]
    cases h1 : truthy t.minor_ea with
    | some g => rw [h1] at h; exact h
    | none =>
      rw [h1] at h
      simp only [Option.none_or] at h ⊢
      cases h2 : truthy t.major_ea with
      | some g => rw [h2] at h; exact h
      | none =>
        rw [h2] at h
        simp only [Option.none_or] at h ⊢
        cases h3 : truthy t.minor_latin with
        | some g => rw [h3] at h; exact h
        | none =>
          rw [h3] at h
          simp only [Option.none_or] at h ⊢
          exact truthy_eq_some h

theorem themeFallback_eq_spec {tf : Option ThemeFonts}
    (h : themeMajorLatinOk tf) : themeFallback tf = themeFallbackSpec tf := by
  cases tf with
  | none => rfl
  | some t =>
    rw [themeFallback, themeFallbackSpec, truthy_id h]

/-- C6 (amended): `get_shape_font` implements the specified priority chain,
up to one corner of the final `or` chain.  Whenever the chain as specified
(first run's run properties with East-Asian before Latin and theme references
resolved, then the first paragraph's default run properties, then the
list-style level-1 defaults, then the theme fallback in the order minor-EA,
major-EA, minor-Latin, major-Latin, first non-empty winning) produces a font,
the code returns exactly that font; and provided the major-Latin theme slot is
not the empty string — the one case the counterexample exhibits, where the
Python `or` chain returns its last operand `""` verbatim instead of `None` —
the code agrees with the specified chain everywhere, in particular returning
`none` when every level is absent. -/
theorem shape_font_priority (shape : Shape) (tf : Option ThemeFonts) :
    (∀ f, getShapeFontSpec shape tf = some f → get_shape_font shape tf = some f) ∧
    (themeMajorLatinOk tf → get_shape_font shape tf = getShapeFontSpec shape tf) := by
  obtain ⟨stf⟩ := shape
  cases stf with
  | none => exact ⟨fun f h => h, fun _ => rfl⟩
  | some t =>
    obtain ⟨paras, lst⟩ := t
    cases paras with
    | nil => exact ⟨fun f h => h, fun _ => rfl⟩
    | cons p ps =>
      simp only [get_shape_font, getShapeFontSpec]
      rw [runLevelFont_eq_spec]
      cases h1 : runLevelFontSpec p.runs tf with
      | some f => exact ⟨fun f' h => h, fun _ => rfl⟩
      | none =>
        simp only [Option.none_or]
        cases h2 : paraLevelFont p tf with
        | some f => exact ⟨fun f' h => h, fun _ => rfl⟩
        | none =>
          simp only [Option.none_or]
          cases h3 : lstStyleLevelFont ⟨p :: ps, lst⟩ tf with
          | some f => exact ⟨fun f' h => h, fun _ => rfl⟩
          | none =>
            simp only [Option.none_or]
            exact ⟨fun f h => themeFallback_of_spec h,
              fun hwf => themeFallback_eq_spec hwf⟩

/-- Shape with a run-level East-Asian override, a paragraph-level default and
a list-style default simultaneously present, used by the C6 witness. -/
def shapeFull : Shape :=
  ⟨some
    ⟨[⟨some ⟨some ⟨none, some "ParaLatin"⟩⟩,
        [⟨some ⟨some "RunEA", some "RunLatin"⟩⟩]⟩],
      some ⟨some ⟨some ⟨some "ListEA", none⟩⟩⟩⟩⟩

/-- A fully populated theme map. -/
def themeFull : ThemeFonts :=
  ⟨some "MajLatin", some "MajEA", some "MinLatin", some "MinEA"⟩

/-- Witness for C6: on a concrete shape with overrides at every level and a
well-formed theme map, the code equals the specified chain. -/
theorem shape_font_priority_witness :
    get_shape_font shapeFull (some themeFull) =
      getShapeFontSpec shapeFull (some themeFull) :=
  (shape_font_priority shapeFull (some themeFull)).2 (by
    with_unfolding_all decide)

/-- A shape with a text frame and one paragraph carrying no font information
at any level. -/
def shapeBare : Shape := ⟨some ⟨[⟨none, []⟩], none⟩⟩

/-- A theme map whose only present slot is an empty-string major-Latin
typeface. -/
def themeEmptyMajor : ThemeFonts := ⟨some "", none, none, none⟩

/-- Counterexample to C6 as stated: on a shape with no font information and a
theme map whose only entry is an empty-string major-Latin slot, no level
yields a non-empty font name (the specified chain produces `none`), yet
`get_shape_font` returns `some ""` — the Python `or` chain returns its last
operand verbatim — rather than the `None` the claim asserts. -/
theorem shape_font_priority_claim_false :
    getShapeFontSpec shapeBare (some themeEmptyMajor) = none ∧
    runLevelFont [] (some themeEmptyMajor) = none ∧
    paraLevelFont ⟨none, []⟩ (some themeEmptyMajor) = none ∧
    lstStyleLevelFont ⟨[⟨none, []⟩], none⟩ (some themeEmptyMajor) = none ∧
    get_shape_font shapeBare (some themeEmptyMajor) = some "" ∧
    (some "" : Option String) ≠ none := by
  refine ⟨?_, ?_, ?_, ?_, ?_, ?_⟩ <;> with_unfolding_all decide

/-! ## Claim theorems: placeholder paragraph defaults -/

/-- C7: when the style chain reaches a level-1 paragraph-properties element,
`get_placeholder_paragraph_defaults` converts a percentage-form line spacing
`v` to the ratio `v / 100000` tagged `"ratio"`, a fixed-point-form value `v`
to `v / 100` points tagged `"fixed_pt"`, and keeps tag `"default"` with value
`none` when neither form is present; space-before and space-after convert
only the fixed-point form by the same `÷100`, a percentage-form encoding
(logged as unsupported in the source) yielding `0.0`. -/
theorem paragraph_defaults_conversions (shape : PlaceholderShape)
    (L : Lvl1PProps) (hchain : resolveLvl1 shape = some L) :
    (∀ ln v, L.lnSpc = some ln → ln.spcPct = some v →
      (get_placeholder_paragraph_defaults shape).line_spacing =
        some ((v : ℚ) / 100000) ∧
      (get_placeholder_paragraph_defaults shape).line_spacing_type = "ratio") ∧
    (∀ ln v, L.lnSpc = some ln → ln.spcPct = none → ln.spcPts = some v →
      (get_placeholder_paragraph_defaults shape).line_spacing =
        some ((v : ℚ) / 100) ∧
      (get_placeholder_paragraph_defaults shape).line_spacing_type = "fixed_pt") ∧
    ((L.lnSpc = none ∨ ∃ ln, L.lnSpc = some ln ∧ ln.spcPct = none ∧
        ln.spcPts = none) →
      (get_placeholder_paragraph_defaults shape).line_spacing = none ∧
      (get_placeholder_paragraph_defaults shape).line_spacing_type = "default") ∧
    (∀ sp v, L.spcBef = some sp → sp.spcPts = some v →
      (get_placeholder_paragraph_defaults shape).space_before_pt = (v : ℚ) / 100) ∧
    (∀ sp, L.spcBef = some sp → sp.spcPts = none →
      (get_placeholder_paragraph_defaults shape).space_before_pt = 0) ∧
    (∀ sp v, L.spcAft = some sp → sp.spcPts = some v →
      (get_placeholder_paragraph_defaults shape).space_after_pt = (v : ℚ) / 100) ∧
    (∀ sp, L.spcAft = some sp → sp.spcPts = none →
      (get_placeholder_paragraph_defaults shape).space_after_pt = 0) := by
  have hr : get_placeholder_paragraph_defaults shape =
      ⟨(match L.lnSpc with
        | none => (none, "default")
        | some ln =>
          match ln.spcPct with
          | some v => (some ((v : ℚ) / 100000), "ratio")
          | none =>
            match ln.spcPts with
            | some v => (some ((v : ℚ) / 100), "fixed_pt")
            | none => (none, "default")).1,
       (match L.lnSpc with
        | none => (none, "default")
        | some ln =>
          match ln.spcPct with
          | some v => (some ((v : ℚ) / 100000), "ratio")
          | none =>
            match ln.spcPts with
            | some v => (some ((v : ℚ) / 100), "fixed_pt")
            | none => (none, "default")).2,
       (match L.spcBef with
        | none => 0
        | some sp =>
          match sp.spcPts with
          | some v => (v : ℚ) / 100
          | none => 0),
       (match L.spcAft with
        | none => 0
        | some sp =>
          match sp.spcPts with
          | some v => (v : ℚ) / 100
          | none => 0)⟩ := by
    rw [get_placeholder_paragraph_defaults, hchain]
  refine ⟨?_, ?_, ?_, ?_, ?_, ?_, ?_⟩
  · intro ln v h1 h2
    rw [hr]
    simp only [h1, h2]
    exact ⟨trivial, trivial⟩
  · intro ln v h1 h2 h3
    rw [hr]
    simp only [h1, h2, h3]
    exact ⟨trivial, trivial⟩
  · rintro (h1 | ⟨ln, h1, h2, h3⟩)
    · rw [hr]
      simp only [h1]
      exact ⟨trivial, trivial⟩
    · rw [hr]
      simp only [h1, h2, h3]
      exact ⟨trivial, trivial⟩
  · intro sp v h1 h2
    rw [hr]
    simp only [h1, h2]
  · intro sp h1 h2
    rw [hr]
    simp only [h1, h2]
  · intro sp v h1 h2
    rw [hr]
    simp only [h1, h2]
  · intro sp h1 h2
    rw [hr]
    simp only [h1, h2]

/-- A placeholder shape whose layout chain carries a percentage line spacing
of `100000`, a fixed-point space-before of `600`, and a (unsupported)
percentage space-after of `50000`. -/
def shapeDefaults : PlaceholderShape :=
  ⟨some 1, [⟨1, some ⟨some ⟨some ⟨some ⟨some 100000, none⟩,
    some ⟨none, some 600⟩, some ⟨some 50000, none⟩⟩⟩⟩⟩]⟩

/-- The level-1 element `shapeDefaults` resolves to. -/
def lvl1Defaults : Lvl1PProps :=
  ⟨some ⟨some 100000, none⟩, some ⟨none, some 600⟩, some ⟨some 50000, none⟩⟩

/-- Witness for C7: `100000 → 1.0` tagged `"ratio"`, `600 → 6.0` points of
space before, and the percentage space-after yields `0.0`. -/
theorem paragraph_defaults_conversions_witness :
    ((get_placeholder_paragraph_defaults shapeDefaults).line_spacing =
        some ((100000 : ℚ) / 100000) ∧
      (get_placeholder_paragraph_defaults shapeDefaults).line_spacing_type =
        "ratio") ∧
    (get_placeholder_paragraph_defaults shapeDefaults).space_before_pt =
      (600 : ℚ) / 100 ∧
    (get_placeholder_paragraph_defaults shapeDefaults).space_after_pt = 0 :=
  ⟨(paragraph_defaults_conversions shapeDefaults lvl1Defaults
      (by with_unfolding_all rfl)).1 ⟨some 100000, none⟩ 100000 rfl rfl,
    (paragraph_defaults_conversions shapeDefaults lvl1Defaults
      (by with_unfolding_all rfl)).2.2.2.1 ⟨none, some 600⟩ 600 rfl rfl,
    (paragraph_defaults_conversions shapeDefaults lvl1Defaults
      (by with_unfolding_all rfl)).2.2.2.2.2.2 ⟨some 50000, none⟩ rfl rfl⟩

end Pptx
